import Mathlib

/-!
Verification of the skupper-router logging module (`src/log.c`).

The definitions below are a shallow embedding of the C code: C strings are
`List Char` / `String`, C `int` is `Int` with two's-complement 32-bit bitwise
operators, the linked lists (`DEQ_*`) are Lean lists, and the global mutable
state (source list, sink list, entry list) is passed explicitly.  Calls into
the platform (stdio, syslog, gettimeofday, localtime) are modelled by explicit
oracles/parameters; the wall-clock time rendering is abstracted because no
claim depends on the rendered text of a timestamp.
-/

namespace SkLog

/-! ## C integer bitwise operators (32-bit two's complement) -/

/-- Number of values of a 32-bit machine word. -/
def U32MOD : Nat := 4294967296

/-- Two's-complement bit pattern of a C `int` value. -/
def toU32 (x : Int) : Nat := (x % (4294967296 : Int)).toNat

/-- Read a 32-bit bit pattern back as a signed C `int`. -/
def ofU32 (n : Nat) : Int := if n < 2147483648 then (n : Int) else (n : Int) - 4294967296

/-- C bitwise `&` on `int`. -/
def cAnd (a b : Int) : Int := ofU32 (Nat.land (toU32 a) (toU32 b))

/-- C bitwise `|` on `int`. -/
def cOr (a b : Int) : Int := ofU32 (Nat.lor (toU32 a) (toU32 b))

/-- C bitwise `~` on `int`. -/
def cNot (a : Int) : Int := ofU32 (U32MOD - 1 - toU32 a)

/-! ## Characters: `tolower`, separators, case-insensitive comparison -/

/-- C `tolower` in the default locale (ASCII): uppercase letters map to
lowercase, everything else is unchanged. -/
def lowerc (c : Char) : Char :=
  match c with
  | 'A' => 'a' | 'B' => 'b' | 'C' => 'c' | 'D' => 'd' | 'E' => 'e' | 'F' => 'f'
  | 'G' => 'g' | 'H' => 'h' | 'I' => 'i' | 'J' => 'j' | 'K' => 'k' | 'L' => 'l'
  | 'M' => 'm' | 'N' => 'n' | 'O' => 'o' | 'P' => 'p' | 'Q' => 'q' | 'R' => 'r'
  | 'S' => 's' | 'T' => 't' | 'U' => 'u' | 'V' => 'v' | 'W' => 'w' | 'X' => 'x'
  | 'Y' => 'y' | 'Z' => 'z'
  | other => other

/-- Case-insensitive character equality, as used by `strcasecmp`/`strncasecmp`. -/
def ceqChar (a b : Char) : Bool := lowerc a == lowerc b

/-- Membership in the separator set `", ;:"` used by `enable_mask`'s `strtok_r`. -/
def isSep (c : Char) : Bool := c == ',' || c == ' ' || c == ';' || c == ':'

/-- Embeds `strncasecmp(a, b, n) == 0` on NUL-terminated strings: compare up to
`n` characters case-insensitively, stopping early when either string ends. -/
def strncaseEq : List Char → List Char → Nat → Bool
  | _, _, 0 => true
  | [], [], _ + 1 => true
  | [], _ :: _, _ + 1 => false
  | _ :: _, [], _ + 1 => false
  | a :: as, b :: bs, n + 1 => ceqChar a b && strncaseEq as bs n

/-- Embeds `strcasecmp(a, b) == 0`: full case-insensitive string equality. -/
def strcaseEq : List Char → List Char → Bool
  | [], [] => true
  | [], _ :: _ => false
  | _ :: _, [] => false
  | a :: as, b :: bs => ceqChar a b && strcaseEq as bs

/-- Tokenization performed by the `strtok_r(enable, ", ;:", ...)` loop in
`enable_mask`: split at separator characters, dropping empty tokens.  The
accumulator holds the current token in reverse. -/
def tokenizeAux : List Char → List Char → List (List Char)
  | [], cur => if cur.isEmpty then [] else [cur.reverse]
  | c :: cs, cur =>
    if isSep c then
      if cur.isEmpty then tokenizeAux cs [] else cur.reverse :: tokenizeAux cs []
    else
      tokenizeAux cs (c :: cur)

/-- Token list of an enable specification string. -/
def tokenize (s : List Char) : List (List Char) := tokenizeAux s []

/-! ## The level table (`levels[]` in log.c) -/

/-- One row of the static `levels[]` table: name, bit flag (`QD_LOG_*`),
"this bit or higher" mask, and the syslog priority. -/
structure LevelT where
  name : List Char
  bit : Int
  mask : Int
  sysl : Int
deriving DecidableEq

/-- Bit flag `QD_LOG_TRACE`.  Modelled from the spec: the `QD_LOG_*` flag
values live in the public header `qpid/dispatch/log.h`, which is not part of
the given sources; the spec fixes them as TRACE=1, DEBUG=2, INFO=4, NOTICE=8,
WARNING=16, ERROR=32, CRITICAL=64. -/
def QD_LOG_TRACE : Int := 1

/-- Bit flag `QD_LOG_DEBUG` (see `QD_LOG_TRACE` for provenance). -/
def QD_LOG_DEBUG : Int := 2

/-- Bit flag `QD_LOG_INFO` (see `QD_LOG_TRACE` for provenance). -/
def QD_LOG_INFO : Int := 4

/-- Bit flag `QD_LOG_NOTICE` (see `QD_LOG_TRACE` for provenance). -/
def QD_LOG_NOTICE : Int := 8

/-- Bit flag `QD_LOG_WARNING` (see `QD_LOG_TRACE` for provenance). -/
def QD_LOG_WARNING : Int := 16

/-- Bit flag `QD_LOG_ERROR` (see `QD_LOG_TRACE` for provenance). -/
def QD_LOG_ERROR : Int := 32

/-- Bit flag `QD_LOG_CRITICAL` (see `QD_LOG_TRACE` for provenance). -/
def QD_LOG_CRITICAL : Int := 64

/-- The `ALL_BITS` macro: `QD_LOG_CRITICAL | (QD_LOG_CRITICAL-1)`. -/
def ALL_BITS : Int := cOr QD_LOG_CRITICAL (QD_LOG_CRITICAL - 1)

/-- The `LEVEL(name, QD_LOG, SYSLOG)` macro: mask is `ALL_BITS & ~(QD_LOG-1)`.
Syslog priority constants come from the platform header `syslog.h`
(LOG_CRIT=2, LOG_ERR=3, LOG_WARNING=4, LOG_NOTICE=5, LOG_INFO=6, LOG_DEBUG=7). -/
def mkLEVEL (name : List Char) (qdBit sysl : Int) : LevelT :=
  ⟨name, qdBit, cAnd ALL_BITS (cNot (qdBit - 1)), sysl⟩

/-- The static `levels[]` table, in table order (index 0 = "default"). -/
def levels : List LevelT :=
  [ ⟨"default".data, -1, -1, 0⟩,
    ⟨"none".data, 0, 0, 0⟩,
    mkLEVEL "trace".data QD_LOG_TRACE 7,
    mkLEVEL "debug".data QD_LOG_DEBUG 7,
    mkLEVEL "info".data QD_LOG_INFO 6,
    mkLEVEL "notice".data QD_LOG_NOTICE 5,
    mkLEVEL "warning".data QD_LOG_WARNING 4,
    mkLEVEL "error".data QD_LOG_ERROR 3,
    mkLEVEL "critical".data QD_LOG_CRITICAL 2 ]

/-- Placeholder row used for out-of-range table reads (never reached on the
paths the theorems take). -/
def dummyLevel : LevelT := ⟨[], 0, 0, 0⟩

/-- The `level_names` string set up by `qd_log_initialize`: the names of
`levels[NONE]` through `levels[CRITICAL]`, i.e. every row except "default".
It is the list embedded in `UnknownLevel` error messages. -/
def level_names : List (List Char) := (levels.drop 1).map (fun l => l.name)

/-- Embeds `level_for_name(name, len)`: first table row whose name matches the
first `len` characters of `name` case-insensitively (`strncasecmp`), `none`
when no row matches (C sets a `QD_ERROR_CONFIG` "not a valid log level" error
listing `level_names`). -/
def level_for_name (name : List Char) (len : Nat) : Option LevelT :=
  levels.find? (fun l => strncaseEq l.name name len)

/-- Embeds `level_for_bit(bit)`: first table row with that bit flag. -/
def level_for_bit (bit : Int) : Option LevelT :=
  levels.find? (fun l => l.bit == bit)

/-- Embeds `level_index_for_bit(bit)`: position of the bit among the valid
levels TRACE..CRITICAL (table indices 2..8), translated so TRACE is 0;
`none` models the C return of -1 with a config error set. -/
def level_index_for_bit (bit : Int) : Option Nat :=
  (levels.drop 2).findIdx? (fun l => l.bit == bit)

/-- Embeds `level_name(level)`: the table name at index `level`, or `none`
when out of range.  Note the argument is used as a table index. -/
def level_name (level : Int) : Option (List Char) :=
  if 0 ≤ level ∧ level < 9 then some ((levels.getD level.toNat dummyLevel).name) else none

/-! ## Errors (`qd_error(QD_ERROR_CONFIG, ...)`) -/

/-- Configuration errors raised by the logging module, carrying the data the
C code formats into the error message. -/
inductive QdError where
  /-- "'token' is not a valid log level. Should be one of {valid}." -/
  | unknownLevel (token : List Char) (valid : List (List Char))
  /-- "Failed to open log file 'name'". -/
  | sinkOpenFail (name : List Char)
deriving DecidableEq

/-! ## enable_mask -/

/-- Loop body of `enable_mask`: fold the token list left to right, ORing each
token's contribution into the accumulator; on the first unknown token return
`-1` with the error `level_for_name` raised. -/
def enable_go : List (List Char) → Int → Int × Option QdError
  | [], m => (m, none)
  | t :: ts, m =>
    let len := t.length
    let plus : Nat := if 0 < len ∧ t.getLast? = some '+' then 1 else 0
    match level_for_name t (len - plus) with
    | none => (-1, some (.unknownLevel t level_names))
    | some l => enable_go ts (cOr m (if plus = 1 then l.mask else l.bit))

/-- Embeds `enable_mask(enable)`: tokenize and fold.  Returns the computed
mask (`-1` on error) together with the error, mirroring the C convention of
returning -1 with `qd_error` set. -/
def enable_mask (s : List Char) : Int × Option QdError :=
  enable_go (tokenize s) 0

/-- Contribution of a single token to the enable mask: the level's single bit
for a bare name, the level's at-or-above mask for a name suffixed `+`;
`none` for an unrecognized token. -/
def tokContrib (t : List Char) : Option Int :=
  let len := t.length
  let plus : Nat := if 0 < len ∧ t.getLast? = some '+' then 1 else 0
  (level_for_name t (len - plus)).map (fun l => if plus = 1 then l.mask else l.bit)

/-- Contributions of all tokens, `none` as soon as one token is unrecognized. -/
def allContribs : List (List Char) → Option (List Int)
  | [] => some []
  | t :: ts =>
    match tokContrib t, allContribs ts with
    | some c, some cs => some (c :: cs)
    | _, _ => none

/-! ## Lemmas about case-insensitive matching and tokenization -/

theorem isSep_lowerc (c : Char) : isSep (lowerc c) = isSep c := by
  unfold lowerc
  split <;> rfl

theorem strcaseEq_map_lowerc : ∀ {t s : List Char}, strcaseEq t s = true →
    t.map lowerc = s.map lowerc := by
  intro t
  induction t with
  | nil =>
    intro s h
    cases s with
    | nil => rfl
    | cons b bs => simp [strcaseEq] at h
  | cons a as ih =>
    intro s h
    cases s with
    | nil => simp [strcaseEq] at h
    | cons b bs =>
      simp only [strcaseEq, Bool.and_eq_true, ceqChar, beq_iff_eq] at h
      simp only [List.map, h.1, List.cons.injEq, true_and]
      exact ih h.2

theorem strncaseEq_zero (a b : List Char) : strncaseEq a b 0 = true := by
  cases a <;> cases b <;> rfl

theorem strncaseEq_map : ∀ (a t s : List Char) (n : Nat),
    t.map lowerc = s.map lowerc → strncaseEq a t n = strncaseEq a s n := by
  intro a
  induction a with
  | nil =>
    intro t s n h
    cases n with
    | zero => rw [strncaseEq_zero, strncaseEq_zero]
    | succ n =>
      cases t with
      | nil => cases s with
        | nil => rfl
        | cons b bs => simp at h
      | cons c cs => cases s with
        | nil => simp at h
        | cons b bs => rfl
  | cons a as ih =>
    intro t s n h
    cases n with
    | zero => rw [strncaseEq_zero, strncaseEq_zero]
    | succ n =>
      cases t with
      | nil => cases s with
        | nil => rfl
        | cons b bs => simp at h
      | cons c cs => cases s with
        | nil => simp at h
        | cons b bs =>
          simp only [List.map, List.cons.injEq] at h
          simp only [strncaseEq, ceqChar, h.1]
          rw [ih cs bs n h.2]

theorem strncaseEq_append_left : ∀ (a t u : List Char) (n : Nat), n ≤ t.length →
    strncaseEq a (t ++ u) n = strncaseEq a t n := by
  intro a
  induction a with
  | nil =>
    intro t u n hn
    cases n with
    | zero => rw [strncaseEq_zero, strncaseEq_zero]
    | succ n =>
      cases t with
      | nil => exact absurd hn (by simp)
      | cons c cs => rfl
  | cons a as ih =>
    intro t u n hn
    cases n with
    | zero => rw [strncaseEq_zero, strncaseEq_zero]
    | succ n =>
      cases t with
      | nil => exact absurd hn (by simp)
      | cons c cs =>
        simp only [List.cons_append, strncaseEq, List.append_eq]
        rw [ih cs u n (Nat.le_of_succ_le_succ hn)]

theorem tokenizeAux_nosep : ∀ (l cur : List Char), (∀ c ∈ l, isSep c = false) →
    tokenizeAux l cur = if (cur.reverse ++ l).isEmpty then [] else [cur.reverse ++ l] := by
  intro l
  induction l with
  | nil =>
    intro cur _
    simp only [tokenizeAux, List.append_nil]
    cases cur with
    | nil => rfl
    | cons c cs => simp
  | cons c cs ih =>
    intro cur h
    have hc : isSep c = false := h c (by simp)
    simp only [tokenizeAux, hc, Bool.false_eq_true, if_false]
    rw [ih (c :: cur) (fun d hd => h d (by simp [hd]))]
    simp

theorem tokenize_single {t : List Char} (hne : t ≠ []) (hs : ∀ c ∈ t, isSep c = false) :
    tokenize t = [t] := by
  unfold tokenize
  rw [tokenizeAux_nosep t [] hs]
  simp [hne]

theorem find?_congr_pred {α : Type} {p q : α → Bool} (h : ∀ a, p a = q a) :
    ∀ L : List α, L.find? p = L.find? q := by
  intro L
  induction L with
  | nil => rfl
  | cons a as ih =>
    simp only [List.find?, h a, ih]

theorem level_for_name_congr {t s : List Char} (h : t.map lowerc = s.map lowerc) (n : Nat) :
    level_for_name t n = level_for_name s n := by
  unfold level_for_name
  exact find?_congr_pred (fun l => strncaseEq_map l.name t s n h) levels

theorem level_for_name_append {t u : List Char} {n : Nat} (hn : n ≤ t.length) :
    level_for_name (t ++ u) n = level_for_name t n := by
  unfold level_for_name
  exact find?_congr_pred (fun l => strncaseEq_append_left l.name t u n hn) levels

theorem nosep_of_map_lowerc {t nm : List Char} (hmap : t.map lowerc = nm.map lowerc)
    (hnm : ∀ c ∈ nm, isSep c = false) : ∀ c ∈ t, isSep c = false := by
  intro c hc
  have h1 : lowerc c ∈ nm.map lowerc := hmap ▸ List.mem_map_of_mem lowerc hc
  obtain ⟨d, hd, hde⟩ := List.mem_map.mp h1
  rw [← isSep_lowerc c, ← hde, isSep_lowerc]
  exact hnm d hd

theorem getLast_ne_plus {t nm : List Char} (hmap : t.map lowerc = nm.map lowerc)
    (hnm : nm.getLast?.map lowerc ≠ some '+') : t.getLast? ≠ some '+' := by
  intro h
  have h1 : t.getLast?.map lowerc = nm.getLast?.map lowerc := by
    rw [← List.getLast?_map, ← List.getLast?_map, hmap]
  rw [h] at h1
  exact hnm (by rw [← h1]; rfl)

/-- Resolution of a case variant `t` of a table name `nm`, bare and with a
trailing `+`. -/
theorem enable_mask_variant {nm : List Char} (row : LevelT) (t : List Char)
    (h : strcaseEq t nm = true)
    (hnm_nosep : ∀ c ∈ nm, isSep c = false)
    (hnm_ne : nm ≠ [])
    (hnm_last : nm.getLast?.map lowerc ≠ some '+')
    (hfind : level_for_name nm nm.length = some row) :
    enable_mask t = (cOr 0 row.bit, none) ∧
    enable_mask (t ++ ['+']) = (cOr 0 row.mask, none) := by
  have hmap := strcaseEq_map_lowerc h
  have hlen : t.length = nm.length := by
    have := congrArg List.length hmap
    simpa using this
  have hne : t ≠ [] := by
    intro e
    apply hnm_ne
    rw [e] at hlen
    exact (List.length_eq_zero.mp hlen.symm)
  have hnosep := nosep_of_map_lowerc hmap hnm_nosep
  have hlast := getLast_ne_plus hmap hnm_last
  constructor
  · unfold enable_mask
    rw [tokenize_single hne hnosep]
    have hcond : ¬(0 < t.length ∧ t.getLast? = some '+') := by
      rintro ⟨-, h2⟩
      exact hlast h2
    simp only [enable_go, hcond, if_false, Nat.sub_zero]
    rw [hlen, level_for_name_congr hmap, hfind]
    simp [enable_go]
  · have hne2 : t ++ ['+'] ≠ [] := by simp
    have hnosep2 : ∀ c ∈ t ++ ['+'], isSep c = false := by
      intro c hc
      rcases List.mem_append.mp hc with h1 | h1
      · exact hnosep c h1
      · simp only [List.mem_singleton] at h1
        subst h1
        rfl
    unfold enable_mask
    rw [tokenize_single hne2 hnosep2]
    have hcond : 0 < (t ++ ['+']).length ∧ (t ++ ['+']).getLast? = some '+' :=
      ⟨by simp, List.getLast?_concat t⟩
    simp only [enable_go, hcond, and_self, if_true]
    have hsub : (t ++ ['+']).length - 1 = t.length := by simp
    rw [hsub, level_for_name_append (Nat.le_refl t.length), hlen,
        level_for_name_congr hmap, hfind]

theorem enable_go_contribs : ∀ (ts : List (List Char)) (m : Int) (cs : List Int),
    allContribs ts = some cs → enable_go ts m = (cs.foldl cOr m, none) := by
  intro ts
  induction ts with
  | nil =>
    intro m cs h
    simp only [allContribs, Option.some.injEq] at h
    subst h
    rfl
  | cons t ts ih =>
    intro m cs h
    simp only [allContribs] at h
    cases htc : tokContrib t with
    | none => rw [htc] at h; exact absurd h (by simp)
    | some c =>
      rw [htc] at h
      cases hcs : allContribs ts with
      | none => rw [hcs] at h; exact absurd h (by simp)
      | some cs' =>
        rw [hcs] at h
        simp only [Option.some.injEq] at h
        subst h
        simp only [tokContrib, Option.map_eq_some'] at htc
        obtain ⟨l, hl, hc⟩ := htc
        simp only [enable_go, hl]
        subst hc
        exact ih (cOr m _) cs' hcs

/-- C6: `enable_mask` resolves valid level names case-insensitively and
returns the bitwise OR of every token's contribution, where a bare name
contributes the level's single bit and a name suffixed with `+` contributes
its at-or-above mask `ALL_BITS & ~(bit - 1)`; in particular `"info"` yields
exactly 4 and `"info+"` yields exactly 124 (with flags TRACE=1 .. CRITICAL=64). -/
theorem C6_enable_mask_or_of_token_contributions :
    (∀ l ∈ levels.drop 2, ∀ t : List Char, strcaseEq t l.name = true →
        enable_mask t = (l.bit, none) ∧ enable_mask (t ++ ['+']) = (l.mask, none)) ∧
    (∀ l ∈ levels.drop 2, l.mask = cAnd ALL_BITS (cNot (l.bit - 1))) ∧
    (∀ (s : List Char) (cs : List Int), allContribs (tokenize s) = some cs →
        enable_mask s = (cs.foldl cOr 0, none)) ∧
    enable_mask "info".data = (QD_LOG_INFO, none) ∧
    QD_LOG_INFO = 4 ∧
    enable_mask "info+".data = (124, none) := by
  refine ⟨?_, by decide, ?_, by decide, by decide, by decide⟩
  · have hside : ∀ l ∈ levels.drop 2,
        (∀ c ∈ l.name, isSep c = false) ∧ l.name ≠ [] ∧
        l.name.getLast?.map lowerc ≠ some '+' ∧
        level_for_name l.name l.name.length = some l ∧
        cOr 0 l.bit = l.bit ∧ cOr 0 l.mask = l.mask := by decide
    intro l hl t ht
    obtain ⟨h1, h2, h3, h4, h5, h6⟩ := hside l hl
    have h := enable_mask_variant l t ht h1 h2 h3 h4
    exact ⟨by rw [h.1, h5], by rw [h.2, h6]⟩
  · intro s cs h
    exact enable_go_contribs (tokenize s) 0 cs h

/-- Witness for C6 at concrete inputs: mixed-case names resolve, a `+` suffix
contributes the at-or-above mask, and the concrete spec strings evaluate. -/
theorem C6_enable_mask_witness :
    enable_mask "TrAcE".data = (1, none) ∧
    enable_mask "WARNING+".data = (112, none) ∧
    enable_mask "info".data = (4, none) := by
  obtain ⟨h1, -, -, h4, h5, -⟩ := C6_enable_mask_or_of_token_contributions
  refine ⟨?_, ?_, by rw [h4, h5]⟩
  · exact (h1 ⟨"trace".data, 1, 127, 7⟩ (by decide) "TrAcE".data (by decide)).1
  · have h := (h1 ⟨"warning".data, 16, 112, 4⟩ (by decide) "WARNING".data (by decide)).2
    rw [show "WARNING".data ++ ['+'] = "WARNING+".data from by decide] at h
    exact h

/-! ## Sinks, sources and log entries -/

/-- Which process stream a sink's `FILE*` handle refers to.  `ffile` is a
handle obtained from `fopen(name, "a")`. -/
inductive FKind where
  | fstdout
  | fstderr
  | ffile
deriving DecidableEq

/-- Dereferenced view of a `log_sink_t` as held by a source: name, whether it
is the syslog sink, and its `FILE*` handle (if any). -/
structure SinkV where
  name : List Char
  syslog : Bool
  file : Option FKind
deriving DecidableEq

/-- A `log_sink_t` as registered in `sink_list`: a `SinkV` plus the reference
count. -/
structure RegSink where
  refcount : Nat
  name : List Char
  syslog : Bool
  file : Option FKind
deriving DecidableEq

/-- A `qd_log_source_t`: module name, tri-state mask/timestamp/source fields
(-1 = unset), optional sink reference, and the 7-bucket severity histogram
(index 0 = TRACE .. index 6 = CRITICAL).  The C struct's `syslog` field is
never read or written in log.c and is omitted. -/
structure LogSource where
  module : String
  mask : Int
  timestamp : Int
  source : Int
  sink : Option SinkV
  severity_histogram : List Nat
deriving DecidableEq

/-- A `qd_log_entry_t` held by the history buffer.  `timeSec`/`timeUsec`
model the `struct timeval` captured by `gettimeofday`. -/
structure Entry where
  module : String
  level : Int
  file : Option String
  line : Int
  timeSec : Nat
  timeUsec : Nat
  text : String
deriving DecidableEq

/-- `QD_LOG_TEXT_MAX`.  Modelled from the spec: the constant lives in the
public header, the spec only requires "a fixed maximum length"; no claim
depends on the value. -/
def TEXT_MAX : Nat := 2048

/-- The `LOG_MAX` macro: `QD_LOG_TEXT_MAX + 128`. -/
def LOG_MAX : Nat := TEXT_MAX + 128

/-- The `LIST_MAX` macro bounding the history buffer. -/
def LIST_MAX : Nat := 1000

/-- Embeds `default_bool(value, default_value)`: the own value if set
(not -1), else the fallback, converted to C truth (non-zero). -/
def default_bool (value default_value : Int) : Bool :=
  (if value = -1 then default_value else value) != 0

/-- Effective filter mask of a source: own mask if set, else the default
source's mask (the expression in `qd_log_enabled`). -/
def effMask (src dflt : LogSource) : Int :=
  if src.mask = -1 then dflt.mask else src.mask

/-- Effective timestamp field (before C truth conversion). -/
def effTimestamp (src dflt : LogSource) : Int :=
  if src.timestamp = -1 then dflt.timestamp else src.timestamp

/-- Effective call-site-display field (before C truth conversion). -/
def effSource (src dflt : LogSource) : Int :=
  if src.source = -1 then dflt.source else src.source

/-- Effective sink: `log_source->sink ? log_source->sink :
default_log_source->sink` (first line of `write_log`). -/
def effSink (src dflt : LogSource) : Option SinkV :=
  match src.sink with
  | some s => some s
  | none => dflt.sink

/-- Embeds `qd_log_enabled(source, level)`: false for a null source, else
test the level bit against the effective mask. -/
def qd_log_enabled (source : Option LogSource) (dflt : LogSource) (level : Int) : Bool :=
  match source with
  | none => false
  | some s => cAnd level (effMask s dflt) != 0

/-- Rendering of the entry timestamp (`localtime` + `strftime` with the
`format` string + `snprintf` of the microseconds).  The calendar text is
environment-dependent and abstracted by an injective stand-in; no claim
depends on the rendered characters. -/
def timeString (sec usec : Nat) : String :=
  toString sec ++ "." ++ toString usec

/-- Outcome of one `write_log` call: the line written to the sink's `FILE*`
(if any), whether the process exited (`exit(1)` on a failed `fputs`), and
the syslog submission (priority and line), if any. -/
structure WriteOut where
  fileWrite : Option String
  fatal : Bool
  syslogWrite : Option (Int × String)
deriving DecidableEq

/-- Embeds `write_log(log_source, entry)`.  `writeOk` is the oracle for the
success of the `fputs` call.  Returns immediately when no sink resolves;
composes the line (timestamp prefix, `module (level) text`, optional
call-site suffix, newline, truncated to the `LOG_MAX` buffer); a failed
stream write calls `exit(1)` (modelled by `fatal`), otherwise the syslog
branch runs when the sink is syslog-backed. -/
def write_log (src dflt : LogSource) (entry : Entry) (writeOk : Bool) : WriteOut :=
  match effSink src dflt with
  | none => ⟨none, false, none⟩
  | some sink =>
    let lv := (level_for_bit entry.level).getD (levels.getD 4 dummyLevel)
    let pre := if default_bool src.timestamp dflt.timestamp then
                 timeString entry.timeSec entry.timeUsec ++ " " else ""
    let mid := entry.module ++ " (" ++ String.mk lv.name ++ ") " ++ entry.text
    let post := match entry.file with
      | some f => if default_bool src.source dflt.source then
                    " (" ++ f ++ ":" ++ toString entry.line ++ ")" else ""
      | none => ""
    let line := (pre ++ mid ++ post ++ "\n").take (LOG_MAX - 1)
    let sw := if sink.syslog && lv.sysl != -1 then some (lv.sysl, line) else none
    match sink.file with
    | some _ => if writeOk then ⟨some line, false, sw⟩ else ⟨none, true, none⟩
    | none => ⟨none, false, sw⟩

/-- Result of one `qd_vlog_impl` call: the updated source and history list
plus the observable sink I/O. -/
structure VlogResult where
  src : LogSource
  entries : List Entry
  fileWrite : Option String
  fatal : Bool
  syslogWrite : Option (Int × String)
deriving DecidableEq

/-- Embeds `qd_vlog_impl(source, level, file, line, fmt, ap)` acting on the
history list `entries`.  `text` is the rendered `fmt`/`ap` message (the
vsnprintf truncates it to `TEXT_MAX`), `nowSec`/`nowUsec` the `gettimeofday`
result, `writeOk` the `fputs` oracle.  The histogram bucket is incremented
for a valid level before the filter check; a filtered-out call stops; an
exit inside `write_log` prevents the history append. -/
def qd_vlog_impl (src dflt : LogSource) (entries : List Entry) (level : Int)
    (file : Option String) (line : Int) (text : String)
    (nowSec nowUsec : Nat) (writeOk : Bool) : VlogResult :=
  let src1 := match level_index_for_bit level with
    | none => src
    | some i => { src with
        severity_histogram := src.severity_histogram.set i
          (src.severity_histogram.getD i 0 + 1) }
  if qd_log_enabled (some src1) dflt level then
    let entry : Entry := ⟨src1.module, level, file, line, nowSec, nowUsec,
                          text.take (TEXT_MAX - 1)⟩
    let w := write_log src1 dflt entry writeOk
    if w.fatal then ⟨src1, entries, w.fileWrite, true, w.syslogWrite⟩
    else
      let es := entries ++ [entry]
      ⟨src1, if es.length > LIST_MAX then es.tail else es,
       w.fileWrite, false, w.syslogWrite⟩
  else ⟨src1, entries, none, false, none⟩

/-- Embeds `qd_log_source_defaults(log_source)`: unset the tri-state fields,
drop the sink reference (without releasing it) and zero the histogram. -/
def qd_log_source_defaults (s : LogSource) : LogSource :=
  { s with mask := -1, timestamp := -1, source := -1, sink := none,
           severity_histogram := List.replicate 7 0 }

/-! ## Lemmas about the emission pipeline -/

theorem findIdx?_some_lt {α : Type} (p : α → Bool) :
    ∀ (L : List α) (s i : Nat), L.findIdx? p s = some i → i < s + L.length := by
  intro L
  induction L with
  | nil => intro s i h; simp [List.findIdx?] at h
  | cons a as ih =>
    intro s i h
    simp only [List.findIdx?] at h
    by_cases hp : p a
    · simp only [hp, if_true, Option.some.injEq] at h
      subst h
      simp only [List.length_cons]
      omega
    · simp only [hp, Bool.false_eq_true, if_false] at h
      have := ih (s + 1) i h
      simp only [List.length_cons]
      omega

theorem level_index_lt {b : Int} {i : Nat} (h : level_index_for_bit b = some i) : i < 7 := by
  have h1 := findIdx?_some_lt _ (levels.drop 2) 0 i h
  have h2 : (levels.drop 2).length = 7 := by decide
  omega

theorem getD_set_self {α : Type} {l : List α} {i : Nat} (h : i < l.length) (v d : α) :
    (l.set i v).getD i d = v := by
  simp [List.getD, List.getElem?_set_self', h]

theorem getD_set_ne {α : Type} {l : List α} {i j : Nat} (h : j ≠ i) (v d : α) :
    (l.set i v).getD j d = l.getD j d := by
  simp [List.getD, List.getElem?_set_ne (Ne.symm h)]

theorem qd_log_enabled_hist (src : LogSource) (h : List Nat) (dflt : LogSource) (level : Int) :
    qd_log_enabled (some { src with severity_histogram := h }) dflt level
      = qd_log_enabled (some src) dflt level := rfl

/-- The source returned by `qd_vlog_impl` is the input source with, for a
valid level, exactly that level's histogram bucket incremented. -/
theorem qd_vlog_impl_src (src dflt : LogSource) (entries : List Entry) (level : Int)
    (file : Option String) (line : Int) (text : String) (ns nu : Nat) (ok : Bool) :
    (qd_vlog_impl src dflt entries level file line text ns nu ok).src =
      (match level_index_for_bit level with
       | none => src
       | some i => { src with severity_histogram :=
            (src.severity_histogram.set i (src.severity_histogram.getD i 0 + 1)) }) := by
  unfold qd_vlog_impl
  cases level_index_for_bit level <;> dsimp only <;> split <;> (try rfl) <;> split <;> rfl

/-- Sources and the per-emission concrete scenario for the histogram claim:
a source filtered to INFO-and-above receiving TRACE events. -/
def c1Src : LogSource := ⟨"m", 124, -1, -1, none, List.replicate 7 0⟩

/-- Default source as set up by `qd_log_initialize` (mask `levels[INFO].mask`,
timestamp on, source display off, stderr sink). -/
def c1Dflt : LogSource := ⟨"DEFAULT", 124, 1, 0, some ⟨"stderr".data, false, some .fstderr⟩,
                           List.replicate 7 0⟩

/-- One TRACE emission against `c1Src`, tracking source and history. -/
def c1Step (p : LogSource × List Entry) : LogSource × List Entry :=
  let r := qd_vlog_impl p.1 c1Dflt p.2 QD_LOG_TRACE none 0 "hello" 0 0 true
  (r.src, r.entries)

/-- C1: every `qd_vlog_impl` call with a valid severity level increments the
source's histogram bucket for that severity by exactly one (all other buckets
unchanged), regardless of the filter outcome; a filtered-out call adds no
history entry.  Concretely, 5 TRACE events against a source filtered to
INFO+ leave a TRACE bucket of 5 and an empty history. -/
theorem C1_emit_increments_histogram :
    (∀ (src dflt : LogSource) (entries : List Entry) (level : Int)
        (file : Option String) (line : Int) (text : String) (ns nu : Nat) (ok : Bool)
        (i : Nat), level_index_for_bit level = some i →
        src.severity_histogram.length = 7 →
        ((qd_vlog_impl src dflt entries level file line text ns nu ok).src.severity_histogram.getD i 0
            = src.severity_histogram.getD i 0 + 1) ∧
        (∀ j, j ≠ i →
          (qd_vlog_impl src dflt entries level file line text ns nu ok).src.severity_histogram.getD j 0
            = src.severity_histogram.getD j 0) ∧
        (qd_log_enabled (some src) dflt level = false →
          (qd_vlog_impl src dflt entries level file line text ns nu ok).entries = entries)) ∧
    c1Step^[5] (c1Src, []) = ({ c1Src with severity_histogram := [5, 0, 0, 0, 0, 0, 0] }, []) := by
  constructor
  · intro src dflt entries level file line text ns nu ok i hi h7
    have hsrc := qd_vlog_impl_src src dflt entries level file line text ns nu ok
    rw [hi] at hsrc
    have hlt : i < src.severity_histogram.length := by rw [h7]; exact level_index_lt hi
    refine ⟨?_, ?_, ?_⟩
    · rw [hsrc]
      exact getD_set_self hlt _ 0
    · intro j hj
      rw [hsrc]
      exact getD_set_ne hj _ 0
    · intro hdis
      unfold qd_vlog_impl
      rw [hi]
      dsimp only
      rw [qd_log_enabled_hist, hdis]
      simp
  · decide

/-- Witness for C1: a concrete TRACE emission against an INFO+-filtered
source bumps the TRACE bucket from 0 to 1 and appends nothing. -/
theorem C1_emit_increments_histogram_witness :
    (qd_vlog_impl c1Src c1Dflt [] 1 none 0 "x" 0 0 true).src.severity_histogram.getD 0 0
        = c1Src.severity_histogram.getD 0 0 + 1 ∧
    (qd_vlog_impl c1Src c1Dflt [] 1 none 0 "x" 0 0 true).entries = [] := by
  obtain ⟨hg, -⟩ := C1_emit_increments_histogram
  obtain ⟨h1, -, h3⟩ := hg c1Src c1Dflt [] 1 none 0 "x" 0 0 true 0 (by decide) (by decide)
  exact ⟨h1, h3 (by decide)⟩

theorem default_bool_effTimestamp (s d : LogSource) :
    default_bool s.timestamp d.timestamp = (effTimestamp s d != 0) := rfl

theorem default_bool_effSource (s d : LogSource) :
    default_bool s.source d.source = (effSource s d != 0) := rfl

/-- `write_log` depends on the two sources only through the effective sink,
timestamp and call-site-display values. -/
theorem write_log_congr (s₁ d₁ s₂ d₂ : LogSource) (e : Entry) (ok : Bool)
    (hsink : effSink s₁ d₁ = effSink s₂ d₂)
    (hts : effTimestamp s₁ d₁ = effTimestamp s₂ d₂)
    (hsrc : effSource s₁ d₁ = effSource s₂ d₂) :
    write_log s₁ d₁ e ok = write_log s₂ d₂ e ok := by
  unfold write_log
  rw [hsink]
  cases hE : effSink s₂ d₂ with
  | none => rfl
  | some sink =>
    dsimp only
    rw [default_bool_effTimestamp, default_bool_effTimestamp,
        default_bool_effSource, default_bool_effSource, hts, hsrc]

theorem effMask_hist (src : LogSource) (h : List Nat) (dflt : LogSource) :
    effMask { src with severity_histogram := h } dflt = effMask src dflt := rfl

theorem effSink_hist (src : LogSource) (h : List Nat) (dflt : LogSource) :
    effSink { src with severity_histogram := h } dflt = effSink src dflt := rfl

/-- C5: a call whose level bit misses the effective mask (own mask if set,
else the default source's mask) produces no history entry and no sink I/O;
and the observable behaviour of `qd_vlog_impl` depends on the two sources
only through the module name and the four effective values (mask, timestamp,
call-site display, sink), each resolved as the source's own value if set,
else the default source's value at the time of the call. -/
theorem C5_effective_config_resolution :
    (∀ (src dflt : LogSource) (entries : List Entry) (level : Int)
        (file : Option String) (line : Int) (text : String) (ns nu : Nat) (ok : Bool),
        cAnd level (effMask src dflt) = 0 →
        (qd_vlog_impl src dflt entries level file line text ns nu ok).entries = entries ∧
        (qd_vlog_impl src dflt entries level file line text ns nu ok).fileWrite = none ∧
        (qd_vlog_impl src dflt entries level file line text ns nu ok).syslogWrite = none ∧
        (qd_vlog_impl src dflt entries level file line text ns nu ok).fatal = false) ∧
    (∀ (src₁ dflt₁ src₂ dflt₂ : LogSource) (entries : List Entry) (level : Int)
        (file : Option String) (line : Int) (text : String) (ns nu : Nat) (ok : Bool),
        src₁.module = src₂.module →
        effMask src₁ dflt₁ = effMask src₂ dflt₂ →
        effTimestamp src₁ dflt₁ = effTimestamp src₂ dflt₂ →
        effSource src₁ dflt₁ = effSource src₂ dflt₂ →
        effSink src₁ dflt₁ = effSink src₂ dflt₂ →
        (qd_vlog_impl src₁ dflt₁ entries level file line text ns nu ok).entries
          = (qd_vlog_impl src₂ dflt₂ entries level file line text ns nu ok).entries ∧
        (qd_vlog_impl src₁ dflt₁ entries level file line text ns nu ok).fileWrite
          = (qd_vlog_impl src₂ dflt₂ entries level file line text ns nu ok).fileWrite ∧
        (qd_vlog_impl src₁ dflt₁ entries level file line text ns nu ok).fatal
          = (qd_vlog_impl src₂ dflt₂ entries level file line text ns nu ok).fatal ∧
        (qd_vlog_impl src₁ dflt₁ entries level file line text ns nu ok).syslogWrite
          = (qd_vlog_impl src₂ dflt₂ entries level file line text ns nu ok).syslogWrite) := by
  constructor
  · intro src dflt entries level file line text ns nu ok h
    have hdis : ∀ s : LogSource, effMask s dflt = effMask src dflt →
        qd_log_enabled (some s) dflt level = false := by
      intro s hs
      simp only [qd_log_enabled, hs, h]
      rfl
    unfold qd_vlog_impl
    cases hidx : level_index_for_bit level <;> dsimp only
    · rw [hdis src rfl]
      simp
    · rw [hdis _ (effMask_hist ..)]
      simp
  · intro src₁ dflt₁ src₂ dflt₂ entries level file line text ns nu ok hmod hm hts hsrc hsink
    unfold qd_vlog_impl
    cases hidx : level_index_for_bit level with
    | none =>
      dsimp only
      have hen : qd_log_enabled (some src₁) dflt₁ level
          = qd_log_enabled (some src₂) dflt₂ level := by
        simp only [qd_log_enabled, hm]
      rw [hen]
      cases he : qd_log_enabled (some src₂) dflt₂ level
      · simp
      · rw [if_pos rfl]
        rw [hmod]
        have hw := write_log_congr src₁ dflt₁ src₂ dflt₂
          ⟨src₂.module, level, file, line, ns, nu, text.take (TEXT_MAX - 1)⟩ ok hsink hts hsrc
        rw [hw]
        split <;> simp
    | some i =>
      dsimp only
      have hen : qd_log_enabled
          (some { src₁ with severity_histogram :=
            (src₁.severity_histogram.set i (src₁.severity_histogram.getD i 0 + 1)) }) dflt₁ level
          = qd_log_enabled
          (some { src₂ with severity_histogram :=
            (src₂.severity_histogram.set i (src₂.severity_histogram.getD i 0 + 1)) }) dflt₂ level := by
        show (cAnd level (effMask src₁ dflt₁) != 0) = (cAnd level (effMask src₂ dflt₂) != 0)
        rw [hm]
      rw [hen]
      cases he : qd_log_enabled
          (some { src₂ with severity_histogram :=
            (src₂.severity_histogram.set i (src₂.severity_histogram.getD i 0 + 1)) }) dflt₂ level
      · simp
      · rw [if_pos rfl]
        rw [hmod]
        have hw := write_log_congr
          { src₁ with module := src₂.module, severity_histogram :=
            (src₁.severity_histogram.set i (src₁.severity_histogram.getD i 0 + 1)) }
          dflt₁
          { src₂ with severity_histogram :=
            (src₂.severity_histogram.set i (src₂.severity_histogram.getD i 0 + 1)) }
          dflt₂
          ⟨src₂.module, level, file, line, ns, nu, text.take (TEXT_MAX - 1)⟩ ok
          hsink hts hsrc
        rw [hw]
        split <;> simp

/-- Witness for C5: a TRACE call against the INFO+-filtered source stops with
no history entry and no sink I/O, and a source with all fields unset behaves
like one carrying the default source's values. -/
theorem C5_effective_config_resolution_witness :
    ((qd_vlog_impl c1Src c1Dflt [] 1 none 0 "x" 0 0 true).entries = [] ∧
     (qd_vlog_impl c1Src c1Dflt [] 1 none 0 "x" 0 0 true).fileWrite = none) ∧
    (qd_vlog_impl ⟨"m", -1, -1, -1, none, []⟩ c1Dflt [] 4 none 0 "x" 0 0 true).fileWrite
      = (qd_vlog_impl ⟨"m", 124, 1, 0, some ⟨"stderr".data, false, some .fstderr⟩, []⟩
          c1Dflt [] 4 none 0 "x" 0 0 true).fileWrite := by
  obtain ⟨h1, h2⟩ := C5_effective_config_resolution
  constructor
  · obtain ⟨ha, hb, -, -⟩ := h1 c1Src c1Dflt [] 1 none 0 "x" 0 0 true (by decide)
    exact ⟨ha, hb⟩
  · exact (h2 ⟨"m", -1, -1, -1, none, []⟩ c1Dflt
      ⟨"m", 124, 1, 0, some ⟨"stderr".data, false, some .fstderr⟩, []⟩ c1Dflt
      [] 4 none 0 "x" 0 0 true rfl (by decide) (by decide) (by decide) (by decide)).2.1

/-- Fatality of a single `write_log` call: `exit(1)` happens exactly when the
resolved sink is stream-backed and the `fputs` fails, and in that case
nothing was written and syslog was not reached. -/
theorem write_log_fatal_iff (s d : LogSource) (e : Entry) (ok : Bool) :
    ((write_log s d e ok).fatal = true ↔
      ok = false ∧ ∃ k, effSink s d = some k ∧ k.file ≠ none) ∧
    ((write_log s d e ok).fatal = true →
      (write_log s d e ok).fileWrite = none ∧ (write_log s d e ok).syslogWrite = none) := by
  unfold write_log
  cases hE : effSink s d with
  | none => simp
  | some sink =>
    dsimp only
    cases hf : sink.file with
    | none => simp [hf]
    | some fk =>
      cases ok with
      | false => simp [hf]
      | true => simp [hf]

/-- C9: across the whole emission pipeline, the only fatal path is a write
failure on a stream-backed sink — `qd_vlog_impl` terminates the process
exactly when the call passes the filter, the effective sink has a `FILE*`
handle, and the write fails; in that case the process exits before the
history append and nothing else (filter check, histogram update, rendering,
history append) produces an error. -/
theorem C9_fatal_only_on_stream_write_failure :
    ∀ (src dflt : LogSource) (entries : List Entry) (level : Int)
      (file : Option String) (line : Int) (text : String) (ns nu : Nat) (ok : Bool),
      ((qd_vlog_impl src dflt entries level file line text ns nu ok).fatal = true ↔
        (qd_log_enabled (some src) dflt level = true ∧ ok = false ∧
         ∃ k, effSink src dflt = some k ∧ k.file ≠ none)) ∧
      ((qd_vlog_impl src dflt entries level file line text ns nu ok).fatal = true →
        (qd_vlog_impl src dflt entries level file line text ns nu ok).entries = entries ∧
        (qd_vlog_impl src dflt entries level file line text ns nu ok).fileWrite = none ∧
        (qd_vlog_impl src dflt entries level file line text ns nu ok).syslogWrite = none) := by
  intro src dflt entries level file line text ns nu ok
  unfold qd_vlog_impl
  cases hidx : level_index_for_bit level with
  | none =>
    dsimp only
    cases he : qd_log_enabled (some src) dflt level with
    | false => simp [he]
    | true =>
      rw [if_pos rfl]
      rcases write_log_fatal_iff src dflt
        ⟨src.module, level, file, line, ns, nu, text.take (TEXT_MAX - 1)⟩ ok with ⟨hiff, himp⟩
      split
      case isTrue hwf =>
        obtain ⟨hok, hex⟩ := hiff.mp hwf
        obtain ⟨hfw, hsw⟩ := himp hwf
        subst hok
        simp [hex, hfw, hsw]
      case isFalse hwf =>
        refine ⟨⟨fun h => absurd h (by simp), fun h => absurd (hiff.mpr ⟨h.2.1, h.2.2⟩) hwf⟩,
                fun h => absurd h (by simp)⟩
  | some i =>
    dsimp only
    cases he : qd_log_enabled
        (some { src with severity_histogram :=
          (src.severity_histogram.set i (src.severity_histogram.getD i 0 + 1)) }) dflt level with
    | false =>
      have he' : qd_log_enabled (some src) dflt level = false := he
      simp [he, he']
    | true =>
      have he' : qd_log_enabled (some src) dflt level = true := he
      rw [if_pos rfl]
      rcases write_log_fatal_iff
        { src with severity_histogram :=
          (src.severity_histogram.set i (src.severity_histogram.getD i 0 + 1)) } dflt
        ⟨src.module, level, file, line, ns, nu, text.take (TEXT_MAX - 1)⟩ ok with ⟨hiff, himp⟩
      rw [effSink_hist] at hiff
      split
      case isTrue hwf =>
        obtain ⟨hok, hex⟩ := hiff.mp hwf
        obtain ⟨hfw, hsw⟩ := himp hwf
        subst hok
        exact ⟨⟨fun _ => ⟨he', rfl, hex⟩, fun _ => rfl⟩, fun _ => ⟨rfl, hfw, hsw⟩⟩
      case isFalse hwf =>
        refine ⟨⟨fun h => absurd h (by simp), fun h => absurd (hiff.mpr ⟨h.2.1, h.2.2⟩) hwf⟩,
                fun h => absurd h (by simp)⟩

/-- Witness for C9: a failed stream write on an enabled call is fatal and the
entry is not appended. -/
theorem C9_fatal_only_on_stream_write_failure_witness :
    (qd_vlog_impl ⟨"m", 4, 0, 0, some ⟨"f".data, false, some .ffile⟩, List.replicate 7 0⟩
       c1Dflt [] 4 none 0 "x" 0 0 false).fatal = true ∧
    (qd_vlog_impl ⟨"m", 4, 0, 0, some ⟨"f".data, false, some .ffile⟩, List.replicate 7 0⟩
       c1Dflt [] 4 none 0 "x" 0 0 false).entries = [] := by
  obtain ⟨hiff, himp⟩ := C9_fatal_only_on_stream_write_failure
    ⟨"m", 4, 0, 0, some ⟨"f".data, false, some .ffile⟩, List.replicate 7 0⟩
    c1Dflt [] 4 none 0 "x" 0 0 false
  have h := hiff.mpr ⟨by decide, rfl, ⟨⟨"f".data, false, some .ffile⟩, rfl, by decide⟩⟩
  exact ⟨h, (himp h).1⟩

/-- Behaviour of an enabled emission when no sink resolves: no I/O, no exit,
entry appended (evicting the oldest entry when the buffer is full). -/
theorem vlog_sinkless_behaviour :
    ∀ (src dflt : LogSource) (entries : List Entry) (level : Int)
        (file : Option String) (line : Int) (text : String) (ns nu : Nat) (ok : Bool),
        src.sink = none → dflt.sink = none →
        qd_log_enabled (some src) dflt level = true →
        (qd_vlog_impl src dflt entries level file line text ns nu ok).fileWrite = none ∧
        (qd_vlog_impl src dflt entries level file line text ns nu ok).syslogWrite = none ∧
        (qd_vlog_impl src dflt entries level file line text ns nu ok).fatal = false ∧
        (qd_vlog_impl src dflt entries level file line text ns nu ok).entries =
          (if (entries ++ [(⟨src.module, level, file, line, ns, nu,
                            text.take (TEXT_MAX - 1)⟩ : Entry)]).length > LIST_MAX
           then (entries ++ [(⟨src.module, level, file, line, ns, nu,
                              text.take (TEXT_MAX - 1)⟩ : Entry)]).tail
           else entries ++ [(⟨src.module, level, file, line, ns, nu,
                             text.take (TEXT_MAX - 1)⟩ : Entry)]) ∧
        (⟨src.module, level, file, line, ns, nu, text.take (TEXT_MAX - 1)⟩ : Entry) ∈
          (qd_vlog_impl src dflt entries level file line text ns nu ok).entries := by
  intro src dflt entries level file line text ns nu ok h1 h2 hen
  have hsink : effSink src dflt = none := by
    unfold effSink
    rw [h1, h2]
  have hmem : (⟨src.module, level, file, line, ns, nu, text.take (TEXT_MAX - 1)⟩ : Entry) ∈
      (if (entries ++ [(⟨src.module, level, file, line, ns, nu,
                        text.take (TEXT_MAX - 1)⟩ : Entry)]).length > LIST_MAX
       then (entries ++ [(⟨src.module, level, file, line, ns, nu,
                          text.take (TEXT_MAX - 1)⟩ : Entry)]).tail
       else entries ++ [(⟨src.module, level, file, line, ns, nu,
                         text.take (TEXT_MAX - 1)⟩ : Entry)]) := by
    split
    case isTrue hlong =>
      cases entries with
      | nil => simp [LIST_MAX] at hlong
      | cons a as => simp
    case isFalse hlong => simp
  unfold qd_vlog_impl
  cases hidx : level_index_for_bit level with
  | none =>
    dsimp only
    rw [hen, if_pos rfl]
    have hw : write_log src dflt
        ⟨src.module, level, file, line, ns, nu, text.take (TEXT_MAX - 1)⟩ ok
        = ⟨none, false, none⟩ := by
      unfold write_log
      rw [hsink]
    rw [hw]
    exact ⟨rfl, rfl, rfl, rfl, hmem⟩
  | some i =>
    dsimp only
    rw [show qd_log_enabled
          (some { src with severity_histogram :=
            (src.severity_histogram.set i (src.severity_histogram.getD i 0 + 1)) }) dflt level
          = true from hen, if_pos rfl]
    have hw : write_log
        { src with severity_histogram :=
          (src.severity_histogram.set i (src.severity_histogram.getD i 0 + 1)) } dflt
        ⟨src.module, level, file, line, ns, nu, text.take (TEXT_MAX - 1)⟩ ok
        = ⟨none, false, none⟩ := by
      unfold write_log
      rw [effSink_hist, hsink]
    rw [hw]
    exact ⟨rfl, rfl, rfl, rfl, hmem⟩

/-- C10: a filter-passing call that resolves no sink at all (own sink unset,
default source's sink null — e.g. after the default source was reset, whose
`qd_log_source_defaults` clears the sink) performs no sink I/O and is not
fatal, yet the rendered entry is still appended to the history buffer. -/
theorem C10_sinkless_emit_still_recorded :
    (∀ (src dflt : LogSource) (entries : List Entry) (level : Int)
        (file : Option String) (line : Int) (text : String) (ns nu : Nat) (ok : Bool),
        src.sink = none → dflt.sink = none →
        qd_log_enabled (some src) dflt level = true →
        (qd_vlog_impl src dflt entries level file line text ns nu ok).fileWrite = none ∧
        (qd_vlog_impl src dflt entries level file line text ns nu ok).syslogWrite = none ∧
        (qd_vlog_impl src dflt entries level file line text ns nu ok).fatal = false ∧
        (qd_vlog_impl src dflt entries level file line text ns nu ok).entries =
          (if (entries ++ [(⟨src.module, level, file, line, ns, nu,
                            text.take (TEXT_MAX - 1)⟩ : Entry)]).length > LIST_MAX
           then (entries ++ [(⟨src.module, level, file, line, ns, nu,
                              text.take (TEXT_MAX - 1)⟩ : Entry)]).tail
           else entries ++ [(⟨src.module, level, file, line, ns, nu,
                             text.take (TEXT_MAX - 1)⟩ : Entry)]) ∧
        (⟨src.module, level, file, line, ns, nu, text.take (TEXT_MAX - 1)⟩ : Entry) ∈
          (qd_vlog_impl src dflt entries level file line text ns nu ok).entries) ∧
    (∀ s : LogSource, (qd_log_source_defaults s).sink = none) :=
  ⟨vlog_sinkless_behaviour, fun _ => rfl⟩

/-- Witness for C10: with both sinks null, an INFO emission writes nowhere
but the entry lands in the history. -/
theorem C10_sinkless_emit_still_recorded_witness :
    (qd_vlog_impl ⟨"m", 4, -1, -1, none, List.replicate 7 0⟩
       ⟨"DEFAULT", -1, -1, -1, none, List.replicate 7 0⟩ [] 4 none 0 "x" 0 0 true).fileWrite
      = none ∧
    (⟨"m", 4, none, 0, 0, 0, "x".take (TEXT_MAX - 1)⟩ : Entry) ∈
      (qd_vlog_impl ⟨"m", 4, -1, -1, none, List.replicate 7 0⟩
        ⟨"DEFAULT", -1, -1, -1, none, List.replicate 7 0⟩ [] 4 none 0 "x" 0 0 true).entries := by
  obtain ⟨hg, -⟩ := C10_sinkless_emit_still_recorded
  have h := hg ⟨"m", 4, -1, -1, none, List.replicate 7 0⟩
    ⟨"DEFAULT", -1, -1, -1, none, List.replicate 7 0⟩ [] 4 none 0 "x" 0 0 true rfl rfl (by decide)
  exact ⟨h.1, h.2.2.2.2⟩

/-! ## The bounded history buffer (C2) -/

/-- Entry produced by the k-th emission of the C2 scenario (INFO level, the
`gettimeofday` seconds standing in for the emission counter). -/
def c2Entry (k : Nat) : Entry := ⟨"m", 4, none, 0, k, 0, "x".take (TEXT_MAX - 1)⟩

/-- One filter-passing INFO emission with a sinkless default source. -/
def c2Step (st : LogSource × List Entry) (k : Nat) : LogSource × List Entry :=
  let r := qd_vlog_impl st.1 ⟨"DEFAULT", -1, -1, -1, none, List.replicate 7 0⟩ st.2
             4 none 0 "x" k 0 true
  (r.src, r.entries)

/-- State after `n` successive filter-passing emissions starting from an
empty history. -/
def c2Run (n : Nat) : LogSource × List Entry :=
  (List.range n).foldl c2Step (⟨"m", 4, -1, -1, none, List.replicate 7 0⟩, [])

theorem tail_append_single {α : Type} (xs : List α) (e : α) (h : xs ≠ []) :
    (xs ++ [e]).tail = xs.tail ++ [e] := by
  cases xs with
  | nil => exact absurd rfl h
  | cons a as => rfl

/-- The append-and-evict step on the concrete C2 history shape. -/
theorem c2_list_step (n : Nat) :
    (if (((List.range n).map c2Entry).drop (n - LIST_MAX) ++ [c2Entry n]).length > LIST_MAX
     then (((List.range n).map c2Entry).drop (n - LIST_MAX) ++ [c2Entry n]).tail
     else ((List.range n).map c2Entry).drop (n - LIST_MAX) ++ [c2Entry n])
      = ((List.range (n + 1)).map c2Entry).drop (n + 1 - LIST_MAX) := by
  rw [List.range_succ, List.map_append]
  unfold LIST_MAX
  by_cases hc : n < 1000
  · have h0 : n - 1000 = 0 := by omega
    have h1 : n + 1 - 1000 = 0 := by omega
    rw [h0, h1]
    simp only [List.drop_zero]
    rw [if_neg (by
      simp only [List.length_append, List.length_drop, List.length_map,
                 List.length_range, List.length_cons, List.length_nil, gt_iff_lt]
      omega)]
    rfl
  · have hge : 1000 ≤ n := Nat.le_of_not_lt hc
    have hxs : (((List.range n).map c2Entry).drop (n - 1000)) ≠ [] := by
      intro h
      have := congrArg List.length h
      simp only [List.length_drop, List.length_map, List.length_range,
                 List.length_nil] at this
      omega
    rw [if_pos (by
      simp only [List.length_append, List.length_drop, List.length_map,
                 List.length_range, List.length_cons, List.length_nil, gt_iff_lt]
      omega)]
    rw [tail_append_single _ _ hxs, List.tail_drop,
        List.drop_append_eq_append_drop]
    have h2 : n + 1 - 1000 - ((List.range n).map c2Entry).length = 0 := by
      simp only [List.length_map, List.length_range]
      omega
    rw [h2, List.drop_zero,
        show n - 1000 + 1 = n + 1 - 1000 from by omega]
    rfl

theorem c2Run_spec : ∀ n : Nat,
    (c2Run n).1.module = "m" ∧ (c2Run n).1.mask = 4 ∧ (c2Run n).1.sink = none ∧
    (c2Run n).2 = ((List.range n).map c2Entry).drop (n - LIST_MAX) := by
  intro n
  induction n with
  | zero => exact ⟨rfl, rfl, rfl, rfl⟩
  | succ n ih =>
    obtain ⟨hmod, hmask, hsink, hent⟩ := ih
    have hstep : c2Run (n + 1) = c2Step (c2Run n) n := by
      unfold c2Run
      rw [List.range_succ, List.foldl_append]
      rfl
    rw [hstep]
    unfold c2Step
    dsimp only
    have hen : qd_log_enabled (some (c2Run n).1)
        ⟨"DEFAULT", -1, -1, -1, none, List.replicate 7 0⟩ 4 = true := by
      show (cAnd 4 (effMask (c2Run n).1 ⟨"DEFAULT", -1, -1, -1, none, List.replicate 7 0⟩)
              != 0) = true
      unfold effMask
      rw [hmask]
      decide
    have hb := vlog_sinkless_behaviour (c2Run n).1
      ⟨"DEFAULT", -1, -1, -1, none, List.replicate 7 0⟩ (c2Run n).2 4 none 0 "x" n 0 true
      hsink rfl hen
    obtain ⟨-, -, -, hentries, -⟩ := hb
    have hsrc := qd_vlog_impl_src (c2Run n).1
      ⟨"DEFAULT", -1, -1, -1, none, List.replicate 7 0⟩ (c2Run n).2 4 none 0 "x" n 0 true
    rw [show level_index_for_bit 4 = some 2 from by decide] at hsrc
    refine ⟨?_, ?_, ?_, ?_⟩
    · rw [hsrc]
      exact hmod
    · rw [hsrc]
      exact hmask
    · rw [hsrc]
      exact hsink
    · rw [hentries, hmod, hent]
      exact c2_list_step n

/-- Splitting the result of `qd_vlog_impl` on the history list: it is either
untouched or updated by the append-and-evict step with some entry. -/
theorem qd_vlog_impl_entries_cases (src dflt : LogSource) (entries : List Entry) (level : Int)
    (file : Option String) (line : Int) (text : String) (ns nu : Nat) (ok : Bool) :
    (qd_vlog_impl src dflt entries level file line text ns nu ok).entries = entries ∨
    ∃ e : Entry, (qd_vlog_impl src dflt entries level file line text ns nu ok).entries =
      (if (entries ++ [e]).length > LIST_MAX then (entries ++ [e]).tail else entries ++ [e]) := by
  unfold qd_vlog_impl
  cases hidx : level_index_for_bit level with
  | none =>
    dsimp only
    split
    · split
      · exact Or.inl rfl
      · exact Or.inr ⟨_, rfl⟩
    · exact Or.inl rfl
  | some i =>
    dsimp only
    split
    · split
      · exact Or.inl rfl
      · exact Or.inr ⟨_, rfl⟩
    · exact Or.inl rfl

/-- C2: after every `qd_vlog_impl` call the history holds at most 1000
entries; an enabled non-fatal call appends the new entry at the newest end
and, exactly when the buffer already held 1000 entries, evicts exactly the
oldest one; after 1001 successive filter-passing emissions from an empty
history, the size is exactly 1000 and the first emitted entry is gone. -/
theorem C2_history_capacity_bound :
    (∀ (src dflt : LogSource) (entries : List Entry) (level : Int)
        (file : Option String) (line : Int) (text : String) (ns nu : Nat) (ok : Bool),
        entries.length ≤ LIST_MAX →
        (qd_vlog_impl src dflt entries level file line text ns nu ok).entries.length ≤ LIST_MAX) ∧
    (∀ (src dflt : LogSource) (entries : List Entry) (level : Int)
        (file : Option String) (line : Int) (text : String) (ns nu : Nat) (ok : Bool),
        qd_log_enabled (some src) dflt level = true →
        (qd_vlog_impl src dflt entries level file line text ns nu ok).fatal = false →
        (entries.length < LIST_MAX →
          (qd_vlog_impl src dflt entries level file line text ns nu ok).entries =
            entries ++ [(⟨src.module, level, file, line, ns, nu,
                         text.take (TEXT_MAX - 1)⟩ : Entry)]) ∧
        (entries.length = LIST_MAX →
          (qd_vlog_impl src dflt entries level file line text ns nu ok).entries =
            entries.tail ++ [(⟨src.module, level, file, line, ns, nu,
                              text.take (TEXT_MAX - 1)⟩ : Entry)])) ∧
    ((c2Run 1001).2.length = LIST_MAX ∧
     c2Entry 0 ∉ (c2Run 1001).2 ∧
     (c2Run 1001).2 = (List.range LIST_MAX).map (fun k => c2Entry (k + 1))) := by
  refine ⟨?_, ?_, ?_⟩
  · intro src dflt entries level file line text ns nu ok hlen
    obtain h | ⟨e, he⟩ :=
      qd_vlog_impl_entries_cases src dflt entries level file line text ns nu ok
    · rw [h]
      exact hlen
    · rw [he]
      split
      case isTrue hgt =>
        simp only [List.length_tail, List.length_append, List.length_singleton]
        omega
      case isFalse hgt =>
        simp only [List.length_append, List.length_singleton,
                   Nat.not_lt, gt_iff_lt] at hgt ⊢
        omega
  · intro src dflt entries level file line text ns nu ok hen hfat
    unfold qd_vlog_impl at hfat ⊢
    cases hidx : level_index_for_bit level with
    | none =>
      rw [hidx] at hfat
      dsimp only at hfat ⊢
      rw [hen, if_pos rfl] at hfat ⊢
      cases hwf : (write_log src dflt
          ⟨src.module, level, file, line, ns, nu, text.take (TEXT_MAX - 1)⟩ ok).fatal with
      | true =>
        rw [hwf] at hfat
        simp at hfat
      | false =>
        rw [if_neg Bool.false_ne_true]
        refine ⟨fun hlt => ?_, fun heq => ?_⟩
        · rw [if_neg]
          simp only [List.length_append, List.length_singleton, Nat.not_lt, gt_iff_lt]
          omega
        · rw [if_pos (by simp only [List.length_append, List.length_singleton,
                                     gt_iff_lt]; omega),
              tail_append_single _ _ (by intro hnil; rw [hnil] at heq; simp [LIST_MAX] at heq)]
    | some i =>
      rw [hidx] at hfat
      dsimp only at hfat ⊢
      rw [show qd_log_enabled
            (some { src with severity_histogram :=
              (src.severity_histogram.set i (src.severity_histogram.getD i 0 + 1)) }) dflt level
            = true from hen, if_pos rfl] at hfat ⊢
      cases hwf : (write_log
          { src with severity_histogram :=
            (src.severity_histogram.set i (src.severity_histogram.getD i 0 + 1)) } dflt
          ⟨src.module, level, file, line, ns, nu, text.take (TEXT_MAX - 1)⟩ ok).fatal with
      | true =>
        rw [hwf] at hfat
        simp at hfat
      | false =>
        rw [if_neg Bool.false_ne_true]
        refine ⟨fun hlt => ?_, fun heq => ?_⟩
        · rw [if_neg]
          simp only [List.length_append, List.length_singleton, Nat.not_lt, gt_iff_lt]
          omega
        · rw [if_pos (by simp only [List.length_append, List.length_singleton,
                                     gt_iff_lt]; omega),
              tail_append_single _ _ (by intro hnil; rw [hnil] at heq; simp [LIST_MAX] at heq)]
  · obtain ⟨-, -, -, hent⟩ := c2Run_spec 1001
    rw [hent]
    rw [show (1001 : Nat) - LIST_MAX = 1 from by decide,
        show (1001 : Nat) = 1000 + 1 from rfl, List.range_succ_eq_map]
    simp only [List.map_cons, List.drop_one, List.tail_cons, List.map_map]
    refine ⟨by simp [LIST_MAX], ?_, by rfl⟩
    intro hmem
    obtain ⟨k, -, hk⟩ := List.mem_map.mp hmem
    have := congrArg Entry.timeSec hk
    simp [c2Entry, Function.comp] at this

/-- Witness for C2: a first emission into an empty history keeps the bound
and appends exactly the one rendered entry. -/
theorem C2_history_capacity_bound_witness :
    (qd_vlog_impl ⟨"m", 4, -1, -1, none, List.replicate 7 0⟩
       ⟨"DEFAULT", -1, -1, -1, none, List.replicate 7 0⟩ [] 4 none 0 "x" 0 0 true).entries.length
        ≤ LIST_MAX ∧
    (qd_vlog_impl ⟨"m", 4, -1, -1, none, List.replicate 7 0⟩
       ⟨"DEFAULT", -1, -1, -1, none, List.replicate 7 0⟩ [] 4 none 0 "x" 0 0 true).entries =
      [] ++ [(⟨"m", 4, none, 0, 0, 0, "x".take (TEXT_MAX - 1)⟩ : Entry)] := by
  obtain ⟨h1, h2, -⟩ := C2_history_capacity_bound
  refine ⟨h1 ⟨"m", 4, -1, -1, none, List.replicate 7 0⟩
      ⟨"DEFAULT", -1, -1, -1, none, List.replicate 7 0⟩ [] 4 none 0 "x" 0 0 true (by decide), ?_⟩
  exact (h2 ⟨"m", 4, -1, -1, none, List.replicate 7 0⟩
      ⟨"DEFAULT", -1, -1, -1, none, List.replicate 7 0⟩ [] 4 none 0 "x" 0 0 true
      (by decide) (by decide)).1 (by decide)

/-! ## The recent-entries query (`qd_log_recent_py`) -/

/-- One tuple of the python list built by `qd_log_recent_py`:
`(module, level-name-or-None, text, file-or-None, line-or-None, seconds)`. -/
structure PyEntry where
  module : String
  levelName : Option (List Char)
  text : String
  file : Option String
  line : Option Int
  timeSec : Nat
deriving DecidableEq

/-- The tuple built for one entry: note `level_name` indexes the level table
with the entry's level value, and the line number is None whenever the file
is absent, exactly as in the C loop body. -/
def pyOf (e : Entry) : PyEntry :=
  ⟨e.module, level_name e.level, e.text, e.file,
   match e.file with
   | some _ => some e.line
   | none => none,
   e.timeSec⟩

/-- The `while (entry && limit)` loop of `qd_log_recent_py`, walking the
history from the newest entry backwards (`l` is the reversed history),
inserting each tuple at position 0 of the result, and decrementing `limit`
only when it is positive. -/
def recent_go : List Entry → Int → List PyEntry → List PyEntry
  | [], _, acc => acc
  | e :: rest, lim, acc =>
    if lim = 0 then acc
    else recent_go rest (if lim > 0 then lim - 1 else lim) (pyOf e :: acc)

/-- Embeds `qd_log_recent_py(limit)` on a history list (oldest first). -/
def qd_log_recent_py (entries : List Entry) (limit : Int) : List PyEntry :=
  recent_go entries.reverse limit []

theorem recent_go_neg : ∀ (l : List Entry) (lim : Int) (acc : List PyEntry), lim < 0 →
    recent_go l lim acc = (l.map pyOf).reverse ++ acc := by
  intro l
  induction l with
  | nil => intro lim acc _; simp [recent_go]
  | cons e rest ih =>
    intro lim acc hneg
    have h0 : ¬ lim = 0 := by omega
    have h1 : ¬ lim > 0 := by omega
    simp only [recent_go, h0, if_false, h1]
    rw [ih lim (pyOf e :: acc) hneg]
    simp

theorem recent_go_nonneg : ∀ (l : List Entry) (lim : Int) (acc : List PyEntry), 0 ≤ lim →
    recent_go l lim acc = ((l.take lim.toNat).map pyOf).reverse ++ acc := by
  intro l
  induction l with
  | nil => intro lim acc _; simp [recent_go]
  | cons e rest ih =>
    intro lim acc hpos
    by_cases h0 : lim = 0
    · subst h0
      simp [recent_go]
    · have h1 : lim > 0 := by omega
      simp only [recent_go, h0, if_false, h1, if_true]
      rw [ih (lim - 1) (pyOf e :: acc) (by omega)]
      rw [show lim.toNat = (lim - 1).toNat + 1 from by omega]
      simp

/-- C3 counterexample: with one entry in the history and `limit = 0`,
`qd_log_recent_py` returns the empty list, not all available entries —
refuting "returns all available entries when limit is zero or negative"
at `limit = 0`. -/
theorem C3_counterexample_limit_zero :
    qd_log_recent_py [⟨"m", 4, none, 0, 5, 0, "x"⟩] 0 = [] ∧
    ([] : List PyEntry) ≠ [pyOf ⟨"m", 4, none, 0, 5, 0, "x"⟩] := by
  constructor
  · rfl
  · decide

/-- C3 (amended): for a positive limit the query returns the
`min(limit, size)` most recent entries in oldest-to-newest order; for a
negative limit it returns all entries; for limit = 0 it returns the empty
sequence (not all entries). -/
theorem C3_recent_query_window :
    (∀ (entries : List Entry) (limit : Int), 0 < limit →
        qd_log_recent_py entries limit =
          ((entries.reverse.take limit.toNat).map pyOf).reverse ∧
        (qd_log_recent_py entries limit).length = min limit.toNat entries.length) ∧
    (∀ (entries : List Entry) (limit : Int), limit < 0 →
        qd_log_recent_py entries limit = entries.map pyOf) ∧
    (∀ entries : List Entry, qd_log_recent_py entries 0 = []) := by
  refine ⟨?_, ?_, ?_⟩
  · intro entries limit hpos
    have h := recent_go_nonneg entries.reverse limit [] (by omega)
    unfold qd_log_recent_py
    rw [h]
    constructor
    · simp
    · simp only [List.append_nil, List.length_reverse, List.length_map,
                 List.length_take]
  · intro entries limit hneg
    have h := recent_go_neg entries.reverse limit [] hneg
    unfold qd_log_recent_py
    rw [h]
    simp [List.map_reverse]
  · intro entries
    unfold qd_log_recent_py
    cases entries.reverse with
    | nil => rfl
    | cons e rest => simp [recent_go]

/-- Witness for C3 (amended): `recent(2)` after three emissions returns the
two most recent, oldest first; a negative limit returns everything. -/
theorem C3_recent_query_window_witness :
    qd_log_recent_py [⟨"a", 4, none, 0, 1, 0, "m1"⟩, ⟨"a", 4, none, 0, 2, 0, "m2"⟩,
                      ⟨"a", 4, none, 0, 3, 0, "m3"⟩] 2 =
      [pyOf ⟨"a", 4, none, 0, 2, 0, "m2"⟩, pyOf ⟨"a", 4, none, 0, 3, 0, "m3"⟩] ∧
    qd_log_recent_py [⟨"a", 4, none, 0, 1, 0, "m1"⟩] (-1) =
      [pyOf ⟨"a", 4, none, 0, 1, 0, "m1"⟩] := by
  obtain ⟨h1, h2, -⟩ := C3_recent_query_window
  constructor
  · rw [(h1 [⟨"a", 4, none, 0, 1, 0, "m1"⟩, ⟨"a", 4, none, 0, 2, 0, "m2"⟩,
             ⟨"a", 4, none, 0, 3, 0, "m3"⟩] 2 (by decide)).1]
    decide
  · rw [h2 [⟨"a", 4, none, 0, 1, 0, "m1"⟩] (-1) (by decide)]
    rfl

/-! ## The sink registry (`sink_list`, `log_sink_lh`, `log_sink_free_lh`) -/

/-- Result of `log_sink_free_lh`: the updated registry, whether an `fclose`
was performed, and whether `closelog` was performed. -/
structure FreeOut where
  sinks : List RegSink
  fileClosed : Bool
  syslogClosed : Bool
deriving DecidableEq

/-- Embeds `log_sink_free_lh(sink)` acting on the registry, the sink being
designated by name (a null sink pointer corresponds to a name not in the
registry — the call is then a no-op).  The reference count is decremented;
at zero the sink is unlinked, its `FILE*` is closed unless it is `stderr`,
and `closelog` runs for the syslog sink. -/
def log_sink_free_lh : List RegSink → List Char → FreeOut
  | [], _ => ⟨[], false, false⟩
  | s :: rest, name =>
    if s.name = name then
      if s.refcount = 1 then
        ⟨rest, s.file.isSome && !(s.file == some FKind.fstderr), s.syslog⟩
      else
        ⟨{ s with refcount := s.refcount - 1 } :: rest, false, false⟩
    else
      let r := log_sink_free_lh rest name
      ⟨s :: r.sinks, r.fileClosed, r.syslogClosed⟩

/-- The find-and-increment half of `log_sink_lh`: bump the reference count of
the existing sink with this name, returning the updated registry and the
sink handle, or `none` when no sink has the name. -/
def sink_incr : List RegSink → List Char → Option (List RegSink × RegSink)
  | [], _ => none
  | s :: rest, name =>
    if s.name = name then
      some ({ s with refcount := s.refcount + 1 } :: rest,
            { s with refcount := s.refcount + 1 })
    else
      match sink_incr rest name with
      | some (rest1, snk) => some (s :: rest1, snk)
      | none => none

/-- The creation half of `log_sink_lh`: `stderr`/`stdout` map to the process
standard streams, `syslog` opens the system log (no `FILE*`), any other name
is `fopen(name, "a")` whose success is the `openOk` oracle; a failed open
creates nothing (`!file && !syslog` in C).  A fresh sink starts with
reference count 1. -/
def sink_create (name : List Char) (openOk : Bool) : Option RegSink :=
  if name = "stderr".data then some ⟨1, name, false, some FKind.fstderr⟩
  else if name = "stdout".data then some ⟨1, name, false, some FKind.fstdout⟩
  else if name = "syslog".data then some ⟨1, name, true, none⟩
  else if openOk then some ⟨1, name, false, some FKind.ffile⟩ else none

/-- Embeds `log_sink_lh(name)`: reuse an existing sink with incremented
refcount, else create one and insert it at the tail of the registry; a
failed file open registers nothing and returns null (with a config error). -/
def log_sink_lh (sinks : List RegSink) (name : List Char) (openOk : Bool) :
    Option (List RegSink × RegSink) :=
  match sink_incr sinks name with
  | some res => some res
  | none =>
    match sink_create name openOk with
    | some snk => some (sinks ++ [snk], snk)
    | none => none

theorem sink_create_refcount (name : List Char) (openOk : Bool) (snk : RegSink)
    (h : sink_create name openOk = some snk) : snk.refcount = 1 := by
  unfold sink_create at h
  split at h
  · cases Option.some.inj h; rfl
  · split at h
    · cases Option.some.inj h; rfl
    · split at h
      · cases Option.some.inj h; rfl
      · split at h
        · cases Option.some.inj h; rfl
        · exact absurd h (by simp)

theorem log_sink_free_cons_ne (p : RegSink) (rest : List RegSink) (name : List Char)
    (h : ¬ p.name = name) :
    log_sink_free_lh (p :: rest) name =
      ⟨p :: (log_sink_free_lh rest name).sinks, (log_sink_free_lh rest name).fileClosed,
       (log_sink_free_lh rest name).syslogClosed⟩ := by
  simp only [log_sink_free_lh]
  rw [if_neg h]

theorem sink_incr_not_found : ∀ (sinks : List RegSink) (name : List Char),
    (∀ p ∈ sinks, ¬ p.name = name) → sink_incr sinks name = none := by
  intro sinks name
  induction sinks with
  | nil => intro _; rfl
  | cons s rest ih =>
    intro h
    unfold sink_incr
    rw [if_neg (h s (by simp)), ih (fun p hp => h p (by simp [hp]))]

/-- C7 counterexample: the sink named "stdout" with a last reference IS
closed on release (its `FILE*` is `stdout`, which differs from `stderr`, so
`fclose` runs) — refuting "the standard streams are never closed" for
stdout. -/
theorem C7_counterexample_stdout_closed :
    (log_sink_free_lh [⟨1, "stdout".data, false, some FKind.fstdout⟩]
       "stdout".data).fileClosed = true ∧
    (log_sink_free_lh [⟨1, "stdout".data, false, some FKind.fstdout⟩]
       "stdout".data).sinks = [] := by
  decide

/-- C7 (amended): release decrements the reference count; exactly when the
count reaches zero the sink is removed from the registry and its resource is
closed (`fclose` for any sink holding a `FILE*` other than `stderr` — the
stdout sink IS closed — and `closelog` for the syslog sink); the `stderr`
sink is never closed; a subsequent acquire of a name absent from the
registry registers a fresh sink with reference count 1. -/
theorem C7_sink_release_refcount :
    (∀ (pre post : List RegSink) (s : RegSink), (∀ p ∈ pre, ¬ p.name = s.name) →
        2 ≤ s.refcount →
        log_sink_free_lh (pre ++ s :: post) s.name =
          ⟨pre ++ { s with refcount := s.refcount - 1 } :: post, false, false⟩) ∧
    (∀ (pre post : List RegSink) (s : RegSink), (∀ p ∈ pre, ¬ p.name = s.name) →
        s.refcount = 1 →
        log_sink_free_lh (pre ++ s :: post) s.name =
          ⟨pre ++ post, s.file.isSome && !(s.file == some FKind.fstderr), s.syslog⟩) ∧
    (∀ (pre post : List RegSink) (s : RegSink), (∀ p ∈ pre, ¬ p.name = s.name) →
        s.refcount = 1 → s.file = some FKind.fstderr →
        (log_sink_free_lh (pre ++ s :: post) s.name).fileClosed = false) ∧
    (∀ (sinks : List RegSink) (name : List Char) (openOk : Bool)
        (res : List RegSink × RegSink), (∀ p ∈ sinks, ¬ p.name = name) →
        log_sink_lh sinks name openOk = some res →
        res.2.refcount = 1 ∧ res.1 = sinks ++ [res.2]) := by
  have hfree2 : ∀ (pre post : List RegSink) (s : RegSink), (∀ p ∈ pre, ¬ p.name = s.name) →
      2 ≤ s.refcount →
      log_sink_free_lh (pre ++ s :: post) s.name =
        ⟨pre ++ { s with refcount := s.refcount - 1 } :: post, false, false⟩ := by
    intro pre
    induction pre with
    | nil =>
      intro post s _ h2
      simp only [List.nil_append, log_sink_free_lh, eq_self_iff_true, if_true]
      rw [if_neg (by omega)]
    | cons p pre1 ih =>
      intro post s hpre h2
      rw [List.cons_append, log_sink_free_cons_ne p _ _ (hpre p (by simp)),
          ih post s (fun q hq => hpre q (by simp [hq])) h2]
      rfl
  have hfree1 : ∀ (pre post : List RegSink) (s : RegSink), (∀ p ∈ pre, ¬ p.name = s.name) →
      s.refcount = 1 →
      log_sink_free_lh (pre ++ s :: post) s.name =
        ⟨pre ++ post, s.file.isSome && !(s.file == some FKind.fstderr), s.syslog⟩ := by
    intro pre
    induction pre with
    | nil =>
      intro post s _ h1
      simp only [List.nil_append, log_sink_free_lh, eq_self_iff_true, if_true]
      rw [if_pos h1]
    | cons p pre1 ih =>
      intro post s hpre h1
      rw [List.cons_append, log_sink_free_cons_ne p _ _ (hpre p (by simp)),
          ih post s (fun q hq => hpre q (by simp [hq])) h1]
      rfl
  refine ⟨hfree2, hfree1, ?_, ?_⟩
  · intro pre post s hpre h1 hstderr
    rw [hfree1 pre post s hpre h1, hstderr]
    rfl
  · intro sinks name openOk res hnames hsome
    unfold log_sink_lh at hsome
    rw [sink_incr_not_found sinks name hnames] at hsome
    dsimp only at hsome
    cases hc : sink_create name openOk with
    | none =>
      rw [hc] at hsome
      exact absurd hsome (by simp)
    | some snk =>
      rw [hc] at hsome
      dsimp only at hsome
      obtain rfl := Option.some.inj hsome
      exact ⟨sink_create_refcount name openOk snk hc, rfl⟩

/-- Witness for C7: a shared file sink decrements from 2 to 1 without
closing; a last-reference stderr sink is removed but not closed; acquiring a
fresh name registers it with reference count 1. -/
theorem C7_sink_release_refcount_witness :
    log_sink_free_lh [⟨2, "f".data, false, some FKind.ffile⟩] "f".data =
      ⟨[⟨1, "f".data, false, some FKind.ffile⟩], false, false⟩ ∧
    log_sink_free_lh [⟨1, "stderr".data, false, some FKind.fstderr⟩] "stderr".data =
      ⟨[], false, false⟩ ∧
    (log_sink_lh [] "f".data true = some ([⟨1, "f".data, false, some FKind.ffile⟩],
       ⟨1, "f".data, false, some FKind.ffile⟩) →
     (⟨1, "f".data, false, some FKind.ffile⟩ : RegSink).refcount = 1) := by
  obtain ⟨h2, h1, -, h4⟩ := C7_sink_release_refcount
  refine ⟨?_, ?_, ?_⟩
  · have := h2 [] [] ⟨2, "f".data, false, some FKind.ffile⟩ (by simp) (by decide)
    simpa using this
  · have := h1 [] [] ⟨1, "stderr".data, false, some FKind.fstderr⟩ (by simp) rfl
    simpa using this
  · intro hacq
    exact (h4 [] "f".data true _ (by simp) hacq).1

/-! ## The source registry and the administrative update (C8, C4) -/

/-- The registry state touched by the administrative operations: the source
list (`source_list`) and the sink registry (`sink_list`). -/
structure SrcState where
  sources : List LogSource
  sinks : List RegSink
deriving DecidableEq

/-- Placeholder for out-of-range source reads (never reached on the paths
the theorems take). -/
def dummySource : LogSource := ⟨"", 0, 0, 0, none, []⟩

/-- Embeds `lookup_log_source_lh(module)` as the position of the first
source whose module name matches case-insensitively.  The C code first
short-circuits the name "DEFAULT" to the `default_log_source` pointer; since
`qd_log_initialize` registers that source (module "DEFAULT") as the first
list element, the plain case-insensitive scan returns the same source. -/
def lookup_log_source (sources : List LogSource) (module : String) : Option Nat :=
  sources.findIdx? (fun s => strcaseEq module.data s.module.data)

/-- Embeds `qd_log_source_lh(module)`: return the position of the existing
source, or register a fresh one (zeroed, then `qd_log_source_defaults`) at
the tail. -/
def qd_log_source_lh (st : SrcState) (module : String) : SrcState × Nat :=
  match lookup_log_source st.sources module with
  | some i => (st, i)
  | none =>
    (⟨st.sources ++ [qd_log_source_defaults ⟨module, 0, 0, 0, none, List.replicate 7 0⟩],
      st.sinks⟩,
     st.sources.length)

/-- Embeds `qd_log_source_reset(module)`: get-or-create, then
`qd_log_source_defaults` on that source.  The sink registry is not touched
(the C code nulls the source's sink pointer without `log_sink_free_lh`). -/
def qd_log_source_reset (st : SrcState) (module : String) : SrcState × Nat :=
  let p := qd_log_source_lh st module
  (⟨p.1.sources.set p.2 (qd_log_source_defaults (p.1.sources.getD p.2 dummySource)),
    p.1.sinks⟩, p.2)

theorem findIdx?_set_congr {α : Type} {p : α → Bool} {d : α} :
    ∀ (l : List α) (i : Nat) (a : α), i < l.length → p a = p (l.getD i d) →
    ∀ s : Nat, (l.set i a).findIdx? p s = l.findIdx? p s := by
  intro l
  induction l with
  | nil =>
    intro i a h
    exact absurd h (by simp)
  | cons x xs ih =>
    intro i a hlt hp s
    cases i with
    | zero =>
      have hp1 : p a = p x := hp
      simp only [List.set, List.findIdx?]
      rw [hp1]
    | succ i =>
      have hp1 : p a = p (xs.getD i d) := hp
      simp only [List.set, List.findIdx?]
      cases hpx : p x with
      | true => rfl
      | false =>
        exact ih i a (by simpa using hlt) hp1 (s + 1)

/-- C8 counterexample: resetting a source that holds the last reference to a
file sink leaves the sink registry unchanged (reference count still 1),
whereas releasing via the registry, as the claim asserts, would have removed
the sink — the reset leaks the reference instead of decrementing it. -/
theorem C8_counterexample_reset_leaks_sink :
    (qd_log_source_reset
        ⟨[⟨"m", 4, -1, -1, some ⟨"f".data, false, some FKind.ffile⟩, List.replicate 7 0⟩],
         [⟨1, "f".data, false, some FKind.ffile⟩]⟩ "m").1.sinks
      = [⟨1, "f".data, false, some FKind.ffile⟩] ∧
    (log_sink_free_lh [⟨1, "f".data, false, some FKind.ffile⟩] "f".data).sinks
      ≠ [⟨1, "f".data, false, some FKind.ffile⟩] := by
  decide

/-- C8 (amended): `qd_log_source_reset` restores the source's mask,
timestamp and call-site-display fields to unset, clears the sink reference
WITHOUT releasing it through the sink registry (reference counts are left
untouched), zeroes the seven histogram buckets, and preserves identity and
registration: the module name, position and the other sources are unchanged,
and a subsequent get-or-create of the same module returns the same source
without creating anything. -/
theorem C8_reset_restores_defaults :
    ∀ (st : SrcState) (module : String) (i : Nat),
      lookup_log_source st.sources module = some i →
      (qd_log_source_reset st module).2 = i ∧
      (qd_log_source_reset st module).1.sinks = st.sinks ∧
      (qd_log_source_reset st module).1.sources.length = st.sources.length ∧
      ((qd_log_source_reset st module).1.sources.getD i dummySource).module
        = (st.sources.getD i dummySource).module ∧
      ((qd_log_source_reset st module).1.sources.getD i dummySource).mask = -1 ∧
      ((qd_log_source_reset st module).1.sources.getD i dummySource).timestamp = -1 ∧
      ((qd_log_source_reset st module).1.sources.getD i dummySource).source = -1 ∧
      ((qd_log_source_reset st module).1.sources.getD i dummySource).sink = none ∧
      ((qd_log_source_reset st module).1.sources.getD i dummySource).severity_histogram
        = List.replicate 7 0 ∧
      (∀ j, j ≠ i → (qd_log_source_reset st module).1.sources.getD j dummySource
        = st.sources.getD j dummySource) ∧
      qd_log_source_lh (qd_log_source_reset st module).1 module
        = ((qd_log_source_reset st module).1, i) := by
  intro st module i hlook
  have hlt : i < st.sources.length := by
    have h1 := findIdx?_some_lt _ st.sources 0 i hlook
    omega
  have hreset : qd_log_source_reset st module =
      (⟨st.sources.set i (qd_log_source_defaults (st.sources.getD i dummySource)),
        st.sinks⟩, i) := by
    unfold qd_log_source_reset qd_log_source_lh
    rw [hlook]
  rw [hreset]
  have hget : (st.sources.set i
      (qd_log_source_defaults (st.sources.getD i dummySource))).getD i dummySource
      = qd_log_source_defaults (st.sources.getD i dummySource) :=
    getD_set_self hlt _ _
  refine ⟨rfl, rfl, by simp, ?_, ?_, ?_, ?_, ?_, ?_, ?_, ?_⟩
  · rw [hget]; rfl
  · rw [hget]; rfl
  · rw [hget]; rfl
  · rw [hget]; rfl
  · rw [hget]; rfl
  · rw [hget]; rfl
  · intro j hj
    exact getD_set_ne hj _ _
  · unfold qd_log_source_lh lookup_log_source
    rw [findIdx?_set_congr st.sources i _ hlt (by rfl) 0]
    have : st.sources.findIdx? (fun s => strcaseEq module.data s.module.data) = some i := hlook
    rw [this]

/-- Witness for C8 (amended): on a one-source state the reset unsets the
fields, keeps the sink registry untouched, and get-or-create finds the same
source again. -/
theorem C8_reset_restores_defaults_witness :
    ((qd_log_source_reset
        ⟨[⟨"m", 4, -1, -1, some ⟨"f".data, false, some FKind.ffile⟩, List.replicate 7 0⟩],
         [⟨1, "f".data, false, some FKind.ffile⟩]⟩ "m").1.sinks
      = [⟨1, "f".data, false, some FKind.ffile⟩]) ∧
    ((qd_log_source_reset
        ⟨[⟨"m", 4, -1, -1, some ⟨"f".data, false, some FKind.ffile⟩, List.replicate 7 0⟩],
         [⟨1, "f".data, false, some FKind.ffile⟩]⟩ "m").1.sources.getD 0 dummySource).mask
      = -1 := by
  have h := C8_reset_restores_defaults
    ⟨[⟨"m", 4, -1, -1, some ⟨"f".data, false, some FKind.ffile⟩, List.replicate 7 0⟩],
     [⟨1, "f".data, false, some FKind.ffile⟩]⟩ "m" 0 (by decide)
  exact ⟨h.2.1, h.2.2.2.2.1⟩

/-- The update record handed to `qd_log_entity` by the management agent:
`module` plus the optional `output`, `enable`, `timestamp` and `source`
attributes (the entity getters are modelled as already-validated values). -/
structure QdEntity where
  module : String
  output : Option String
  enable : Option String
  timestamp : Option Bool
  source : Option Bool
deriving DecidableEq

/-- The `timestamp`/`source` tail of `qd_log_entity`: apply each boolean
directly if given. -/
def qd_log_entity_tsrc (st : SrcState) (i : Nat) (e : QdEntity) :
    SrcState × Option QdError :=
  let st1 : SrcState := match e.timestamp with
    | some b => ⟨st.sources.set i
        { st.sources.getD i dummySource with timestamp := if b then 1 else 0 }, st.sinks⟩
    | none => st
  let st2 : SrcState := match e.source with
    | some b => ⟨st1.sources.set i
        { st1.sources.getD i dummySource with source := if b then 1 else 0 }, st1.sinks⟩
    | none => st1
  (st2, none)

/-- The `enable` block of `qd_log_entity`: `src->mask = enable_mask(enable)`
(note the -1 error value is assigned to the mask), then `QD_ERROR_BREAK`
skips the remaining fields when `enable_mask` raised an error. -/
def qd_log_entity_enable (st : SrcState) (i : Nat) (e : QdEntity) :
    SrcState × Option QdError :=
  match e.enable with
  | some en =>
    let r := enable_mask en.data
    let st1 : SrcState :=
      ⟨st.sources.set i { st.sources.getD i dummySource with mask := r.1 }, st.sinks⟩
    match r.2 with
    | some er => (st1, some er)
    | none => qd_log_entity_tsrc st1 i e
  | none => qd_log_entity_tsrc st i e

/-- Embeds `qd_log_entity(entity)`: get-or-create the module's source; if
`output` is given, acquire the new sink (error aborts), release the previous
sink via the registry, assign the new one and force the timestamp off for a
syslog sink; then the `enable` block; then `timestamp`/`source`.  Returns
the final state and `qd_error_code()`. -/
def qd_log_entity (st : SrcState) (e : QdEntity) (openOk : Bool) :
    SrcState × Option QdError :=
  let p := qd_log_source_lh st e.module
  let st1 := p.1
  let i := p.2
  match e.output with
  | some out =>
    (match log_sink_lh st1.sinks out.data openOk with
     | none => (st1, some (.sinkOpenFail out.data))
     | some (sinks1, snk) =>
       let src := st1.sources.getD i dummySource
       let sinks2 := match src.sink with
         | some sv => (log_sink_free_lh sinks1 sv.name).sinks
         | none => sinks1
       let newsink : Option SinkV := some ⟨snk.name, snk.syslog, snk.file⟩
       let newts : Int := if snk.syslog then 0 else src.timestamp
       let src1 := { src with sink := newsink, timestamp := newts }
       qd_log_entity_enable ⟨st1.sources.set i src1, sinks2⟩ i e)
  | none => qd_log_entity_enable st1 i e

/-- Every error raised inside `enable_mask` comes with the returned value -1
and is the `UnknownLevel` error listing `level_names`. -/
theorem enable_go_error : ∀ (ts : List (List Char)) (m : Int) (er : QdError),
    (enable_go ts m).2 = some er →
    enable_go ts m = (-1, some er) ∧ ∃ tok, er = QdError.unknownLevel tok level_names := by
  intro ts
  induction ts with
  | nil =>
    intro m er h
    exact absurd h (by simp [enable_go])
  | cons t ts ih =>
    intro m er h
    simp only [enable_go] at h ⊢
    cases hl : level_for_name t
        (t.length - (if 0 < t.length ∧ t.getLast? = some '+' then 1 else 0)) with
    | none =>
      rw [hl] at h
      dsimp only at h
      obtain rfl := Option.some.inj h
      exact ⟨rfl, t, rfl⟩
    | some l =>
      rw [hl] at h
      dsimp only at h ⊢
      exact ⟨(ih _ er h).1, (ih _ er h).2⟩

/-- C4 counterexample: a source whose mask is 4 (INFO only), updated with
`enable = "bogus"`, does NOT keep its mask — `src->mask =
enable_mask(enable)` stores the -1 error value, so the mask becomes unset
(inheriting the default source thereafter), refuting "the target source's
filter mask is left unchanged". -/
theorem C4_counterexample_mask_overwritten :
    ((qd_log_entity ⟨[⟨"m", 4, -1, -1, none, List.replicate 7 0⟩], []⟩
        ⟨"m", none, some "bogus", none, none⟩ true).1.sources.getD 0 dummySource).mask
      = -1 ∧
    ((-1 : Int) ≠ 4) ∧
    (qd_log_entity ⟨[⟨"m", 4, -1, -1, none, List.replicate 7 0⟩], []⟩
        ⟨"m", none, some "bogus", none, none⟩ true).2
      = some (.unknownLevel "bogus".data level_names) := by
  refine ⟨?_, by decide, ?_⟩ <;> decide

/-- C4 (amended): an update whose enable string contains an unrecognized
token returns the `UnknownLevel` configuration error naming the offending
token and listing the valid level names, aborts the remaining fields, and
sets the target source's mask to -1 (unset) — it does not leave the mask
unchanged; nothing else of the source or the sink registry changes. -/
theorem C4_unknown_level_error_resets_mask :
    (∀ (s : List Char) (er : QdError), (enable_mask s).2 = some er →
        (enable_mask s).1 = -1 ∧ ∃ tok, er = QdError.unknownLevel tok level_names) ∧
    (∀ (st : SrcState) (e : QdEntity) (ok : Bool) (i : Nat) (en : String) (er : QdError),
        e.output = none → e.enable = some en →
        lookup_log_source st.sources e.module = some i →
        (enable_mask en.data).2 = some er →
        qd_log_entity st e ok =
          (⟨st.sources.set i { st.sources.getD i dummySource with mask := -1 }, st.sinks⟩,
           some er)) := by
  have hmain : ∀ (s : List Char) (er : QdError), (enable_mask s).2 = some er →
      enable_mask s = (-1, some er) ∧ ∃ tok, er = QdError.unknownLevel tok level_names :=
    fun s er h => enable_go_error (tokenize s) 0 er h
  refine ⟨fun s er h => ⟨by rw [(hmain s er h).1], (hmain s er h).2⟩, ?_⟩
  intro st e ok i en er hout hen hlook herr
  unfold qd_log_entity
  rw [show qd_log_source_lh st e.module = (st, i) from by
        unfold qd_log_source_lh
        rw [hlook]]
  dsimp only
  rw [hout]
  dsimp only
  unfold qd_log_entity_enable
  rw [hen]
  dsimp only
  rw [(hmain en.data er herr).1]

/-- Witness for C4 (amended): the concrete "bogus" update yields the
`UnknownLevel` error with the full valid-name list and the unset mask. -/
theorem C4_unknown_level_error_resets_mask_witness :
    qd_log_entity ⟨[⟨"m", 4, -1, -1, none, List.replicate 7 0⟩], []⟩
        ⟨"m", none, some "bogus", none, none⟩ true =
      (⟨[⟨"m", -1, -1, -1, none, List.replicate 7 0⟩], []⟩,
       some (.unknownLevel "bogus".data level_names)) := by
  have h := (C4_unknown_level_error_resets_mask).2
    ⟨[⟨"m", 4, -1, -1, none, List.replicate 7 0⟩], []⟩
    ⟨"m", none, some "bogus", none, none⟩ true 0 "bogus"
    (.unknownLevel "bogus".data level_names) rfl rfl (by decide) (by decide)
  rw [h]
  decide

end SkLog
